import Mathlib

/-!
Verification development for the GambleGlee Wallet Ledger & Betting Escrow
Engine and its frontend companions.

The repository ships the frontend (React/TypeScript) callers of the engine:
WalletPage.tsx, utils/security.ts, services/api.ts, hooks/useLocation.ts,
types/index.ts.  The engine itself (Atomic Balance Operator, Ledger Store,
Escrow Manager, Idempotency Ledger) is described by the design document but
its code is not part of the source tree, so those parts are modelled from
the spec, as marked in the doc comments.  The frontend pieces (rate limiter,
deposit/withdrawal handlers, location hook) are embedded directly from the
TypeScript source.
-/

namespace Engine

/-- Modelled from the spec: the error taxonomy of §7 restricted to the
errors the balance operator itself can raise. -/
inductive WalletError where
  | insufficientFunds
  | invalidAmount
deriving DecidableEq, Repr

/-- Modelled from the spec: the `entry_type` enumeration of §3. -/
inductive EntryType where
  | deposit
  | withdrawal
  | betLock
  | betRelease
  | betPayout
  | commission
  | refund
deriving DecidableEq, Repr

/-- Modelled from the spec: a LedgerEntry (§3), reduced to the fields the
claims are about.  `delta` is the signed change to the wallet's total funds
(`available_balance + locked_balance`): a pure move between the two balances
(bet_lock, bet_release) has delta 0, which is exactly what the §3
reconciliation invariant demands of the recorded deltas. -/
structure LedgerEntry where
  entryType : EntryType
  delta : Int
deriving DecidableEq, Repr

/-- Modelled from the spec: a Wallet (§3) together with its append-only
ledger history (most recent entry first).  Balances are signed integer
minor units. -/
structure WalletState where
  available : Int
  locked : Int
  ledger : List LedgerEntry
deriving DecidableEq, Repr

/-- Modelled from the spec: a wallet is created lazily with zero balances
and an empty ledger (§3 Lifecycle). -/
def initialWallet : WalletState := ⟨0, 0, []⟩

/-- Modelled from the spec: the per-wallet effect of each Atomic Balance
Operator call (§4.2).  A `settle` call touches several wallets; its
per-wallet effects are `settleDebit` (a loser's locked stake is removed),
`settleCredit` (the winner's locked stake is removed and the payout is
credited to available), and `settleCommission` (the platform wallet is
credited the commission). -/
inductive Op where
  | deposit (amount : Int)
  | withdraw (amount : Int)
  | lock (amount : Int)
  | release (amount : Int)
  | settleDebit (stake : Int)
  | settleCredit (stake payout : Int)
  | settleCommission (amount : Int)
deriving DecidableEq, Repr

/-- Modelled from the spec: §4.1/§4.2.  Each operation validates its
amount (`InvalidAmount` on a non-positive amount), checks that no balance
would be driven negative (`InsufficientFunds`), and only then mutates the
balances and appends the ledger entry — check and mutation are one step,
and a failed call writes nothing. -/
def applyOp (s : WalletState) : Op → Except WalletError WalletState
  | .deposit a =>
    if a ≤ 0 then .error .invalidAmount
    else .ok ⟨s.available + a, s.locked, ⟨.deposit, a⟩ :: s.ledger⟩
  | .withdraw a =>
    if a ≤ 0 then .error .invalidAmount
    else if s.available < a then .error .insufficientFunds
    else .ok ⟨s.available - a, s.locked, ⟨.withdrawal, -a⟩ :: s.ledger⟩
  | .lock a =>
    if a ≤ 0 then .error .invalidAmount
    else if s.available < a then .error .insufficientFunds
    else .ok ⟨s.available - a, s.locked + a, ⟨.betLock, 0⟩ :: s.ledger⟩
  | .release a =>
    if a ≤ 0 then .error .invalidAmount
    else if s.locked < a then .error .insufficientFunds
    else .ok ⟨s.available + a, s.locked - a, ⟨.betRelease, 0⟩ :: s.ledger⟩
  | .settleDebit stake =>
    if stake ≤ 0 then .error .invalidAmount
    else if s.locked < stake then .error .insufficientFunds
    else .ok ⟨s.available, s.locked - stake, ⟨.betPayout, -stake⟩ :: s.ledger⟩
  | .settleCredit stake payout =>
    if stake ≤ 0 ∨ payout < 0 then .error .invalidAmount
    else if s.locked < stake then .error .insufficientFunds
    else .ok ⟨s.available + payout, s.locked - stake,
              ⟨.betPayout, payout - stake⟩ :: s.ledger⟩
  | .settleCommission a =>
    if a < 0 then .error .invalidAmount
    else .ok ⟨s.available + a, s.locked, ⟨.commission, a⟩ :: s.ledger⟩

/-- Modelled from the spec: rejected operations leave the wallet untouched
(§4.1 "nothing is written"); the caller keeps the previous state. -/
def applyOrKeep (s : WalletState) (op : Op) : WalletState :=
  match applyOp s op with
  | .ok s' => s'
  | .error _ => s

/-- Modelled from the spec: the Concurrency Coordinator (§4.3) serializes
all mutating operations against one wallet, so any set of concurrent calls
executes as some sequence; `runOps` applies such a sequence, recording for
each call whether it failed (and with which error). -/
def runOps (s : WalletState) : List Op → WalletState × List (Option WalletError)
  | [] => (s, [])
  | op :: ops =>
    match applyOp s op with
    | .ok s' =>
      let r := runOps s' ops
      (r.1, none :: r.2)
    | .error e =>
      let r := runOps s ops
      (r.1, some e :: r.2)

/-- The no-overdraft invariant of §8: both balances are nonnegative. -/
def walletInv (s : WalletState) : Prop := 0 ≤ s.available ∧ 0 ≤ s.locked

instance (s : WalletState) : Decidable (walletInv s) := by
  unfold walletInv; infer_instance

/-- Sum of the signed deltas recorded in a wallet's ledger. -/
def ledgerSum (s : WalletState) : Int := (s.ledger.map LedgerEntry.delta).sum

/-- The reconciliation invariant of §8: current balances equal the fold of
the ledger history. -/
def walletRecon (s : WalletState) : Prop :=
  s.available + s.locked = ledgerSum s

/-- Modelled from the spec: rounding to the minor unit using round-half-up
(§4.2) — the value of the fraction num/den rounded half-up, computed in
exact integer arithmetic as floor((2*num + den) / (2*den)). -/
def roundHalfUp (num den : Nat) : Nat := (2 * num + den) / (2 * den)

/-- Modelled from the spec: the winner payout of a `settle` call (§4.2):
the combined stakes times (1 − r), rounded half-up to the minor unit.  The
commission rate r is the exact fraction rNum/rDen. -/
def settlePayout (total rNum rDen : Nat) : Nat :=
  roundHalfUp (total * (rDen - rNum)) rDen

/-- Modelled from the spec: the commission of a `settle` call (§8
Conservation): commission = (S_a + S_b) − payout. -/
def settleCommission (total rNum rDen : Nat) : Nat :=
  total - settlePayout total rNum rDen

/-- Modelled from the spec: the signed ledger deltas produced by one
`settle` call (§4.2): each locked stake is removed (one negative delta per
participant), the winner's available balance is credited the payout, and
the platform wallet is credited the commission. -/
def settleDeltas (stakes : List Nat) (rNum rDen : Nat) : List Int :=
  stakes.map (fun s => -(s : Int)) ++
    [(settlePayout stakes.sum rNum rDen : Int),
     (settleCommission stakes.sum rNum rDen : Int)]

/-- Modelled from the spec: boundary validation of a monetary input (§4.2,
§7).  The raw input is an exact rational number of minor units; it is
accepted only when it is a positive whole number of minor units, in which
case the integer amount is returned.  A non-positive or
fractional-minor-unit input is rejected with `InvalidAmount`.  No
floating-point representation appears anywhere: amounts are exact
rationals at the boundary and signed integers inside. -/
def validateAmount (q : ℚ) : Except WalletError Int :=
  if q ≤ 0 then .error .invalidAmount
  else if q.den ≠ 1 then .error .invalidAmount
  else .ok q.num

/-- Modelled from the spec: `deposit` validates its amount strictly before
any mutation (§4.2). -/
def depositChecked (s : WalletState) (q : ℚ) : Except WalletError WalletState :=
  match validateAmount q with
  | .error e => .error e
  | .ok n => applyOp s (.deposit n)

/-- Modelled from the spec: `withdraw` validates its amount strictly before
any mutation (§4.2). -/
def withdrawChecked (s : WalletState) (q : ℚ) : Except WalletError WalletState :=
  match validateAmount q with
  | .error e => .error e
  | .ok n => applyOp s (.withdraw n)

/-- Modelled from the spec: the Idempotency Ledger state (§4.5) — the
wallet plus the map from idempotency key to the stored result snapshot
(here: the resulting available balance). -/
structure KeyedState where
  ws : WalletState
  records : List (String × Int)
deriving DecidableEq, Repr

/-- Modelled from the spec: a keyed operation (§4.5).  The key is looked up
before the mutation; on a hit the stored snapshot is returned unchanged
and nothing is mutated.  On a miss the operation executes, and the balance
mutation and the insertion of the idempotency record happen in the same
atomic step.  A failed operation mutates nothing and stores nothing, so a
retry with the same key re-executes it. -/
def runKeyed (s : KeyedState) (key : String) (op : Op) :
    Except WalletError Int × KeyedState :=
  match s.records.lookup key with
  | some r => (.ok r, s)
  | none =>
    match applyOp s.ws op with
    | .error e => (.error e, s)
    | .ok ws' => (.ok ws'.available, ⟨ws', (key, ws'.available) :: s.records⟩)

/-- Modelled from the spec: the state after replaying the same keyed
operation n times (§4.5). -/
def iterateKeyed (s : KeyedState) (key : String) (op : Op) : Nat → KeyedState
  | 0 => s
  | n + 1 => iterateKeyed (runKeyed s key op).2 key op n

/-- Modelled from the spec: the list of results returned by n replays of
the same keyed operation (§4.5). -/
def replayResults (s : KeyedState) (key : String) (op : Op) :
    Nat → List (Except WalletError Int)
  | 0 => []
  | n + 1 => (runKeyed s key op).1 :: replayResults (runKeyed s key op).2 key op n

/-- Modelled from the spec: the bet lifecycle statuses of §4.4. -/
inductive BetStatus where
  | pending
  | accepted
  | active
  | resolved
  | cancelled
  | refunded
  | disputed
  | expired
deriving DecidableEq, Repr

/-- Modelled from the spec: the Escrow Manager's view of one bet (§4.4):
its status, how many participants have joined, and the amounts of its
currently unreleased EscrowHold rows. -/
structure BetState where
  status : BetStatus
  joined : Nat
  holds : List Nat
deriving DecidableEq, Repr

/-- Modelled from the spec: a bet is created by its originator in `pending`
with no funds locked (§4.4). -/
def createBet : BetState := ⟨.pending, 0, []⟩

/-- Modelled from the spec: the events driving the bet lifecycle state
machine of §4.4. -/
inductive BetEvent where
  | join
  | activate
  | resolve
  | cancel
  | refund
  | dispute
  | expire
  | adjudicateResolve
  | adjudicateRefund
deriving DecidableEq, Repr

/-- Modelled from the spec: the transition function of the bet lifecycle
state machine (§4.4), for a bet requiring `required` participants with
stake amounts `stakes`.  `none` means the event is invalid in the current
status (`BetStateConflict`).  Stakes are locked in one logical step exactly
when the last required participant joins; every terminal transition out of
a funded state releases or transfers all holds. -/
def betStep (required : Nat) (stakes : List Nat) (s : BetState) :
    BetEvent → Option BetState
  | .join =>
    if s.status = .pending then
      if s.joined + 1 < required then some ⟨.pending, s.joined + 1, []⟩
      else some ⟨.accepted, s.joined + 1, stakes⟩
    else none
  | .activate =>
    if s.status = .accepted then some ⟨.active, s.joined, s.holds⟩ else none
  | .resolve =>
    if s.status = .accepted ∨ s.status = .active then
      some ⟨.resolved, s.joined, []⟩
    else none
  | .cancel =>
    if s.status = .pending then some ⟨.cancelled, s.joined, []⟩ else none
  | .refund =>
    if s.status = .accepted ∨ s.status = .active then
      some ⟨.refunded, s.joined, []⟩
    else none
  | .dispute =>
    if s.status = .accepted ∨ s.status = .active then
      some ⟨.disputed, s.joined, s.holds⟩
    else none
  | .expire =>
    if s.status = .accepted ∨ s.status = .active then
      some ⟨.expired, s.joined, []⟩
    else none
  | .adjudicateResolve =>
    if s.status = .disputed then some ⟨.resolved, s.joined, []⟩ else none
  | .adjudicateRefund =>
    if s.status = .disputed then some ⟨.refunded, s.joined, []⟩ else none

/-- The states of one bet reachable from its creation through the §4.4
state machine. -/
inductive BetReachable (required : Nat) (stakes : List Nat) : BetState → Prop
  | init : BetReachable required stakes createBet
  | step {s s' : BetState} {e : BetEvent} :
      BetReachable required stakes s →
      betStep required stakes s e = some s' →
      BetReachable required stakes s'

end Engine

namespace RateLimiter

/-- One value of the RateLimiter.limits map (frontend/src/utils/security.ts,
class RateLimiter): the request count of the current window and the time at
which the window resets.  Times are integer milliseconds. -/
structure LimitEntry where
  count : Nat
  resetTime : Nat
deriving DecidableEq, Repr

/-- The static Map keyed by the rate-limit key, embedded as an association
list whose lookup takes the first (authoritative) binding. -/
def LimitMap := List (String × LimitEntry)

/-- Map.set: bind a key to a value, replacing any previous binding. -/
def setEntry (m : LimitMap) (key : String) (v : LimitEntry) : LimitMap :=
  (key, v) :: (List.filter (fun p => p.1 ≠ key) m)

/-- RateLimiter.checkLimit (security.ts lines 235-254), with the current
time an explicit argument in place of Date.now().  If the key has no entry
or its window has passed (now strictly greater than resetTime), a fresh
window starts with count 1 and the call is allowed.  Inside a window the
call is rejected once count has reached maxRequests, and otherwise allowed
with count incremented. -/
def checkLimit (m : LimitMap) (key : String) (maxRequests windowMs now : Nat) :
    Bool × LimitMap :=
  match List.lookup key m with
  | none => (true, setEntry m key ⟨1, now + windowMs⟩)
  | some limit =>
    if limit.resetTime < now then
      (true, setEntry m key ⟨1, now + windowMs⟩)
    else if maxRequests ≤ limit.count then
      (false, m)
    else
      (true, setEntry m key ⟨limit.count + 1, limit.resetTime⟩)

/-- A sequence of checkLimit calls against the same key and configuration,
made at the given times; returns the results in call order together with
the final map. -/
def runCalls (m : LimitMap) (key : String) (maxRequests windowMs : Nat) :
    List Nat → List Bool × LimitMap
  | [] => ([], m)
  | t :: ts =>
    let c := checkLimit m key maxRequests windowMs t
    let r := runCalls c.2 key maxRequests windowMs ts
    (c.1 :: r.1, r.2)

end RateLimiter

namespace WalletPage

/-- A JavaScript number as it participates in the WalletPage guards: either
NaN (the result of parseFloat on a non-numeric string) or an exact numeric
value.  Every JS comparison involving NaN is false. -/
inductive JsNum where
  | nan
  | num (q : ℚ)
deriving DecidableEq, Repr

/-- The JS `<=` comparison: false whenever either side is NaN. -/
def jsLe : JsNum → JsNum → Bool
  | .num a, .num b => a ≤ b
  | _, _ => false

/-- The JS `>` comparison: false whenever either side is NaN. -/
def jsGt : JsNum → JsNum → Bool
  | .num a, .num b => b < a
  | _, _ => false

/-- handleDeposit (frontend/src/pages/WalletPage.tsx lines 68-79), reduced
to its decision: given amount = parseFloat(depositAmount), returns whether
depositMutation.mutate(amount) is invoked.  The guards return early on
amount <= 0 and on amount > 10000. -/
def handleDeposit (amount : JsNum) : Bool :=
  if jsLe amount (.num 0) then false
  else if jsGt amount (.num 10000) then false
  else true

/-- handleWithdrawal (WalletPage.tsx lines 81-96), reduced to its decision:
given amount = parseFloat(withdrawalAmount) and the wallet query data
(none while not loaded, otherwise its balance), returns whether
withdrawalMutation.mutate(amount) is invoked.  The guards return early on
amount <= 0, on amount > 5000, and on wallet && amount > wallet.balance. -/
def handleWithdrawal (amount : JsNum) (wallet : Option ℚ) : Bool :=
  if jsLe amount (.num 0) then false
  else if jsGt amount (.num 5000) then false
  else
    match wallet with
    | some balance => if jsGt amount (.num balance) then false else true
    | none => true

end WalletPage

namespace UseLocation

/-- The compliance_status values of the LocationData interface
(frontend/src/hooks/useLocation.ts lines 3-12). -/
inductive ComplianceStatus where
  | allowed
  | restricted
  | blocked
deriving DecidableEq, Repr

/-- The LocationData interface (useLocation.ts lines 3-12). -/
structure LocationData where
  country : String
  countryName : String
  region : String
  city : String
  complianceStatus : ComplianceStatus
  paymentProcessor : String
  paymentMethods : List String
  currency : String
deriving DecidableEq, Repr

/-- A daily/weekly/monthly limit triple (useLocation.ts lines 18-27). -/
structure LimitTriple where
  daily : Nat
  weekly : Nat
  monthly : Nat
deriving DecidableEq, Repr

/-- The ComplianceRequirements interface (useLocation.ts lines 14-29). -/
structure ComplianceRequirements where
  kycRequired : Bool
  ageVerification : Bool
  taxCollection : Bool
  depositLimits : LimitTriple
  withdrawalLimits : LimitTriple
  currency : String
deriving DecidableEq, Repr

/-- The default United States location installed by the catch branch of
detectLocation (useLocation.ts lines 62-71). -/
def defaultLocation : LocationData :=
  ⟨"US", "United States", "", "", .allowed, "stripe",
   ["card", "ach", "bank_transfer"], "USD"⟩

/-- The default compliance requirements installed by the catch branch of
detectLocation (useLocation.ts lines 72-79). -/
def defaultCompliance : ComplianceRequirements :=
  ⟨true, true, true, ⟨1000, 5000, 20000⟩, ⟨5000, 10000, 50000⟩, "USD"⟩

/-- The fallback United States location set by detectLocationFallback when
browser geolocation is available (useLocation.ts lines 101-110); no
compliance requirements are set on this path. -/
def fallbackLocation : LocationData :=
  ⟨"US", "United States", "", "", .allowed, "stripe",
   ["card", "ach", "bank_transfer"], "USD"⟩

/-- How one run of detectLocation can go: the fetch of /api/v1/location
returns ok with a payload, returns a non-ok response (after which the
geolocation fallback may or may not be available), or fails/throws. -/
inductive FetchOutcome where
  | ok (loc : LocationData) (comp : ComplianceRequirements)
  | httpError (geolocationAvailable : Bool)
  | threw
deriving DecidableEq, Repr

/-- detectLocation (useLocation.ts lines 38-83) as a function of the fetch
outcome: the resulting location and compliance state.  On ok the payload
is stored; on a non-ok response the geolocation fallback sets the fallback
US location (and no compliance data); if the request fails or throws, the
catch branch sets the default US location and default compliance. -/
def detectLocation : FetchOutcome →
    Option LocationData × Option ComplianceRequirements
  | .ok l c => (some l, some c)
  | .httpError true => (some fallbackLocation, none)
  | .httpError false => (none, none)
  | .threw => (some defaultLocation, some defaultCompliance)

/-- isLocationAllowed (useLocation.ts lines 145-147). -/
def isLocationAllowed (location : Option LocationData) : Bool :=
  match location with
  | some l => l.complianceStatus = .allowed
  | none => false

/-- isLocationBlocked (useLocation.ts lines 153-155). -/
def isLocationBlocked (location : Option LocationData) : Bool :=
  match location with
  | some l => l.complianceStatus = .blocked
  | none => false

end UseLocation

namespace Engine

/-- The payout never exceeds the combined stakes: the rounded-half-up value
of total*(1-r) stays at or below total for any rate with positive
denominator. -/
theorem settlePayout_le (total rNum rDen : Nat) (hden : 0 < rDen) :
    settlePayout total rNum rDen ≤ total := by
  unfold settlePayout roundHalfUp
  have h1 : total * (rDen - rNum) ≤ total * rDen :=
    Nat.mul_le_mul_left total (Nat.sub_le _ _)
  have h2 : 2 * (total * (rDen - rNum)) + rDen < (total + 1) * (2 * rDen) := by
    nlinarith
  have h3 := (Nat.div_lt_iff_lt_mul (by omega : 0 < 2 * rDen)).mpr h2
  omega

/-- C1: a single settle call over stakes S_a, S_b at commission rate
rNum/rDen pays the winner round-half-up((S_a+S_b)*(1-r)) and the platform
the remainder, payout + commission exactly equals S_a + S_b, and the sum
of all deltas produced by the call is zero. -/
theorem settle_conservation (Sa Sb rNum rDen : Nat)
    (hden : 0 < rDen) (hrate : rNum ≤ rDen) :
    settlePayout (Sa + Sb) rNum rDen + settleCommission (Sa + Sb) rNum rDen
        = Sa + Sb ∧
    (settleDeltas [Sa, Sb] rNum rDen).sum = 0 := by
  have hle := settlePayout_le (Sa + Sb) rNum rDen hden
  have hsum : settlePayout (Sa + Sb) rNum rDen
      + settleCommission (Sa + Sb) rNum rDen = Sa + Sb := by
    unfold settleCommission; omega
  refine ⟨hsum, ?_⟩
  have hcast : ((settlePayout (Sa + Sb) rNum rDen : Int)
      + (settleCommission (Sa + Sb) rNum rDen : Int)) = (Sa : Int) + Sb := by
    exact_mod_cast congrArg (Nat.cast (R := Int)) hsum
  simp [settleDeltas]
  omega

/-- Scenario B instance of C1: stakes 10000 and 10000 at 5% commission give
the winner 19000 and the platform 1000, the deltas sum to zero, and the
winner's available balance rises by exactly the payout. -/
theorem settle_conservation_witness :
    0 < 100 ∧ 5 ≤ 100 ∧
    (settlePayout (10000 + 10000) 5 100 + settleCommission (10000 + 10000) 5 100
        = 10000 + 10000 ∧
      (settleDeltas [10000, 10000] 5 100).sum = 0) ∧
    settlePayout 20000 5 100 = 19000 ∧
    settleCommission 20000 5 100 = 1000 ∧
    (applyOrKeep ⟨0, 10000, []⟩ (.settleCredit 10000 19000)).available = 0 + 19000 :=
  ⟨by decide, by decide,
   settle_conservation 10000 10000 5 100 (by decide) (by decide),
   by decide, by decide, rfl⟩

/-- A successful balance operation preserves the no-overdraft invariant. -/
theorem walletInv_applyOp {s s' : WalletState} {op : Op}
    (h : applyOp s op = .ok s') (hs : walletInv s) : walletInv s' := by
  obtain ⟨h1, h2⟩ := hs
  cases op <;> simp only [applyOp] at h <;> split_ifs at h <;>
    simp only [Except.ok.injEq] at h <;> subst h <;>
    exact ⟨by simp; omega, by simp; omega⟩

/-- Running any sequence of operations from an invariant-satisfying state,
keeping the old state on rejected calls, preserves the invariant. -/
theorem walletInv_runOps (s : WalletState) (hs : walletInv s) (ops : List Op) :
    walletInv (runOps s ops).1 := by
  induction ops generalizing s with
  | nil => simpa [runOps] using hs
  | cons op ops ih =>
    simp only [runOps]
    cases hop : applyOp s op with
    | ok s' => simpa using ih s' (walletInv_applyOp hop hs)
    | error e => simpa using ih s hs

/-- C2: every wallet satisfies available_balance ≥ 0 ∧ locked_balance ≥ 0
after every operation — the invariant is preserved by each operation, every
sequence of operations from the fresh wallet keeps it, and a withdrawal
exceeding the available balance fails with InsufficientFunds instead of
driving the balance negative. -/
theorem wallet_no_overdraft :
    (∀ (s : WalletState) (op : Op), walletInv s → walletInv (applyOrKeep s op)) ∧
    (∀ ops : List Op, walletInv (runOps initialWallet ops).1) ∧
    (∀ (s : WalletState) (a : Int), 0 < a → s.available < a →
      applyOp s (.withdraw a) = .error .insufficientFunds) := by
  refine ⟨?_, ?_, ?_⟩
  · intro s op hs
    unfold applyOrKeep
    cases hop : applyOp s op with
    | ok s' => exact walletInv_applyOp hop hs
    | error e => exact hs
  · intro ops
    exact walletInv_runOps initialWallet (by simp [initialWallet, walletInv]) ops
  · intro s a ha hlt
    simp only [applyOp]
    rw [if_neg (by omega), if_pos hlt]

/-- Concrete instance of C2: a deposit on a small wallet keeps both
balances nonnegative, so does a deposit/lock/overdrawing-withdraw run from
the fresh wallet, and withdrawing 7 from an available balance of 3 fails
with InsufficientFunds. -/
theorem wallet_no_overdraft_witness :
    walletInv (applyOrKeep ⟨5, 0, []⟩ (.deposit 7)) ∧
    walletInv (runOps initialWallet [.deposit 5, .lock 3, .withdraw 9]).1 ∧
    applyOp ⟨3, 0, []⟩ (.withdraw 7) = .error .insufficientFunds :=
  ⟨wallet_no_overdraft.1 ⟨5, 0, []⟩ (.deposit 7) (by decide),
   wallet_no_overdraft.2.1 [.deposit 5, .lock 3, .withdraw 9],
   wallet_no_overdraft.2.2 ⟨3, 0, []⟩ 7 (by decide) (by decide)⟩

/-- A successful balance operation preserves the reconciliation invariant:
the appended entry's delta equals the change in available + locked. -/
theorem walletRecon_applyOp {s s' : WalletState} {op : Op}
    (h : applyOp s op = .ok s') (hs : walletRecon s) : walletRecon s' := by
  unfold walletRecon ledgerSum at hs ⊢
  cases op <;> simp only [applyOp] at h <;> split_ifs at h <;>
    simp only [Except.ok.injEq] at h <;> subst h <;>
    simp only [List.map_cons, List.sum_cons] <;> omega

/-- Running any sequence of operations, keeping the old state on rejected
calls, preserves the reconciliation invariant. -/
theorem walletRecon_runOps (s : WalletState) (hs : walletRecon s)
    (ops : List Op) : walletRecon (runOps s ops).1 := by
  induction ops generalizing s with
  | nil => simpa [runOps] using hs
  | cons op ops ih =>
    simp only [runOps]
    cases hop : applyOp s op with
    | ok s' => simpa using ih s' (walletRecon_applyOp hop hs)
    | error e => simpa using ih s hs

/-- C3: for every wallet, at every point of its history — i.e. after every
sequence of operations applied to the fresh wallet — available_balance +
locked_balance equals the sum of the delta values of all recorded ledger
entries. -/
theorem wallet_reconciliation (ops : List Op) :
    walletRecon (runOps initialWallet ops).1 :=
  walletRecon_runOps initialWallet (by simp [initialWallet, walletRecon, ledgerSum]) ops

/-- Concrete instance of C3: after a deposit, a lock, a failed withdrawal
and a settle credit, the balances still equal the ledger fold. -/
theorem wallet_reconciliation_witness :
    walletRecon (runOps initialWallet
      [.deposit 100, .lock 40, .withdraw 500, .settleCredit 40 76]).1 :=
  wallet_reconciliation [.deposit 100, .lock 40, .withdraw 500, .settleCredit 40 76]

/-- A keyed operation whose key already has a record returns the stored
snapshot unchanged and performs no mutation. -/
theorem runKeyed_cached {s : KeyedState} {key : String} {v : Int} (op : Op)
    (h : s.records.lookup key = some v) :
    runKeyed s key op = (.ok v, s) := by
  simp [runKeyed, h]

/-- Replaying a keyed operation whose key already has a record any number
of times never changes the state and always returns the snapshot. -/
theorem iterateKeyed_cached {s : KeyedState} {key : String} {v : Int} (op : Op)
    (h : s.records.lookup key = some v) :
    ∀ n, iterateKeyed s key op n = s ∧
      replayResults s key op n = List.replicate n (.ok v) := by
  intro n
  induction n with
  | zero => exact ⟨rfl, rfl⟩
  | succ n ih =>
    have hr := runKeyed_cached op h
    refine ⟨?_, ?_⟩
    · simp only [iterateKeyed, hr]
      exact ih.1
    · simp only [replayResults, hr, List.replicate]
      exact congrArg _ ih.2

/-- C4: replaying a keyed operation any number of times produces exactly
one side effect and an identical result at every replay — once the first
execution succeeds, the state after n+1 replays equals the state after the
first, and all n+1 returned results are the first result. -/
theorem keyed_idempotent (s : KeyedState) (key : String) (op : Op)
    (ws' : WalletState)
    (hfresh : s.records.lookup key = none)
    (hok : applyOp s.ws op = .ok ws') :
    ∀ n : Nat,
      iterateKeyed s key op (n + 1) = (runKeyed s key op).2 ∧
      replayResults s key op (n + 1) =
        List.replicate (n + 1) (runKeyed s key op).1 := by
  intro n
  have h1 : runKeyed s key op =
      (.ok ws'.available, ⟨ws', (key, ws'.available) :: s.records⟩) := by
    simp [runKeyed, hfresh, hok]
  have h2 : (⟨ws', (key, ws'.available) :: s.records⟩ :
      KeyedState).records.lookup key = some ws'.available := by
    simp [List.lookup]
  obtain ⟨hit, hres⟩ := iterateKeyed_cached op h2 n
  refine ⟨?_, ?_⟩
  · simp only [iterateKeyed, h1]
    simpa using hit
  · simp only [replayResults, h1, List.replicate]
    simpa using hres

/-- Scenario C instance of C4: the deposit notification with idempotency
key dep-42 delivered twice credits the wallet exactly once — two replays
end in the same state as one, both deliveries return the same result, and
the available balance is 5000, not 10000. -/
theorem keyed_idempotent_witness :
    ((⟨initialWallet, []⟩ : KeyedState).records.lookup "dep-42" = none) ∧
    applyOp initialWallet (.deposit 5000) = .ok ⟨5000, 0, [⟨.deposit, 5000⟩]⟩ ∧
    (iterateKeyed ⟨initialWallet, []⟩ "dep-42" (.deposit 5000) (1 + 1) =
        (runKeyed ⟨initialWallet, []⟩ "dep-42" (.deposit 5000)).2 ∧
      replayResults ⟨initialWallet, []⟩ "dep-42" (.deposit 5000) (1 + 1) =
        List.replicate (1 + 1)
          (runKeyed ⟨initialWallet, []⟩ "dep-42" (.deposit 5000)).1) ∧
    (iterateKeyed ⟨initialWallet, []⟩ "dep-42" (.deposit 5000) 2).ws.available
        = 5000 :=
  ⟨rfl, rfl,
   keyed_idempotent ⟨initialWallet, []⟩ "dep-42" (.deposit 5000)
     ⟨5000, 0, [⟨.deposit, 5000⟩]⟩ rfl rfl 1,
   rfl⟩

/-- C5: every amount accepted by deposit and withdraw is a positive whole
number of minor currency units; a non-positive or fractional-minor-unit
input is rejected with InvalidAmount before any mutation, and all
arithmetic is exact (rational at the boundary, integer inside) — no
floating point anywhere. -/
theorem validateAmount_invalid {q : ℚ} (hq : q ≤ 0 ∨ q.den ≠ 1) :
    validateAmount q = .error .invalidAmount := by
  unfold validateAmount
  by_cases hq0 : q ≤ 0
  · rw [if_pos hq0]
  · rcases hq with hq | hq
    · exact absurd hq hq0
    · rw [if_neg hq0, if_pos hq]

theorem validateAmount_ok {q : ℚ} {n : Int} (h : validateAmount q = .ok n) :
    q.den = 1 ∧ 0 < q.num ∧ n = q.num := by
  unfold validateAmount at h
  by_cases hq0 : q ≤ 0
  · rw [if_pos hq0] at h; simp at h
  · by_cases hd : q.den ≠ 1
    · rw [if_neg hq0, if_pos hd] at h; simp at h
    · rw [if_neg hq0, if_neg hd] at h
      injection h with h
      exact ⟨not_not.mp hd, Rat.num_pos.mpr (lt_of_not_le hq0), h.symm⟩

theorem amount_validation (s : WalletState) (q : ℚ) :
    ((q ≤ 0 ∨ q.den ≠ 1) →
      depositChecked s q = .error .invalidAmount ∧
      withdrawChecked s q = .error .invalidAmount) ∧
    (∀ s', depositChecked s q = .ok s' →
      q.den = 1 ∧ 0 < q.num ∧ s'.available = s.available + q.num) ∧
    (∀ s', withdrawChecked s q = .ok s' →
      q.den = 1 ∧ 0 < q.num ∧ s'.available = s.available - q.num) := by
  refine ⟨?_, ?_, ?_⟩
  · intro hq
    have hv := validateAmount_invalid hq
    constructor <;> simp [depositChecked, withdrawChecked, hv]
  · intro s' h
    unfold depositChecked at h
    cases hv : validateAmount q with
    | error e => rw [hv] at h; simp at h
    | ok n =>
      rw [hv] at h
      obtain ⟨hd, hnum, hn⟩ := validateAmount_ok hv
      subst hn
      simp only [applyOp] at h
      rw [if_neg (by omega)] at h
      injection h with h
      subst h
      exact ⟨hd, hnum, by simp⟩
  · intro s' h
    unfold withdrawChecked at h
    cases hv : validateAmount q with
    | error e => rw [hv] at h; simp at h
    | ok n =>
      rw [hv] at h
      obtain ⟨hd, hnum, hn⟩ := validateAmount_ok hv
      subst hn
      simp only [applyOp] at h
      rw [if_neg (by omega)] at h
      split_ifs at h with hins
      injection h with h
      subst h
      exact ⟨hd, hnum, by simp⟩

/-- Concrete instance of C5: the fractional input 1/2 minor unit is
rejected with InvalidAmount by both deposit and withdraw, and a successful
deposit of the whole amount 5 credits exactly the integer 5. -/
theorem amount_validation_witness :
    (depositChecked initialWallet (mkRat 1 2) = .error .invalidAmount ∧
      withdrawChecked initialWallet (mkRat 1 2) = .error .invalidAmount) ∧
    ((5 : ℚ).den = 1 ∧ 0 < (5 : ℚ).num ∧
      (⟨5, 0, [⟨.deposit, 5⟩]⟩ : WalletState).available
        = initialWallet.available + (5 : ℚ).num) :=
  ⟨(amount_validation initialWallet (mkRat 1 2)).1 (Or.inr (by decide)),
   (amount_validation initialWallet (5 : ℚ)).2.1 ⟨5, 0, [⟨.deposit, 5⟩]⟩ rfl⟩

end Engine

namespace RateLimiter

/-- Setting a key makes it the authoritative binding. -/
theorem lookup_setEntry (m : LimitMap) (key : String) (v : LimitEntry) :
    List.lookup key (setEntry m key v) = some v := by
  simp [setEntry, List.lookup]

/-- Inside one window — every call time at or before the entry's reset
time — the calls are allowed exactly until the count reaches maxRequests,
and rejected from then on. -/
theorem runCalls_in_window (key : String) (maxRequests windowMs : Nat) :
    ∀ (ts : List Nat) (m : LimitMap) (c r : Nat),
      List.lookup key m = some ⟨c, r⟩ →
      (∀ t ∈ ts, t ≤ r) →
      c ≤ maxRequests →
      (runCalls m key maxRequests windowMs ts).1 =
        List.replicate (min ts.length (maxRequests - c)) true ++
          List.replicate (ts.length - (maxRequests - c)) false := by
  intro ts
  induction ts with
  | nil => intro m c r _ _ _; simp [runCalls]
  | cons t ts ih =>
    intro m c r hl hin hc
    have ht : t ≤ r := hin t (List.mem_cons_self t ts)
    have hin' : ∀ u ∈ ts, u ≤ r := fun u hu => hin u (List.mem_cons_of_mem t hu)
    by_cases hfull : maxRequests ≤ c
    · have hceq : maxRequests - c = 0 := by omega
      have hstep : checkLimit m key maxRequests windowMs t = (false, m) := by
        simp only [checkLimit, hl]
        rw [if_neg (by omega), if_pos hfull]
      simp only [runCalls, hstep]
      rw [ih m c r hl hin' hc]
      simp [hceq, List.replicate_succ]
    · have hstep : checkLimit m key maxRequests windowMs t =
          (true, setEntry m key ⟨c + 1, r⟩) := by
        simp only [checkLimit, hl]
        rw [if_neg (by omega), if_neg hfull]
      simp only [runCalls, hstep]
      rw [ih (setEntry m key ⟨c + 1, r⟩) (c + 1) r (lookup_setEntry m key _)
        hin' (by omega)]
      have h1 : min (ts.length + 1) (maxRequests - c) =
          min ts.length (maxRequests - (c + 1)) + 1 := by omega
      have h2 : ts.length + 1 - (maxRequests - c) =
          ts.length - (maxRequests - (c + 1)) := by omega
      simp only [List.length_cons]
      rw [h1, h2, List.replicate_succ]
      simp

/-- C6 counterexample: with maxRequests = 0 the very first call of a
window is still allowed, so more than maxRequests calls within the window
return true — the claim fails at maxRequests = 0. -/
theorem checkLimit_zero_limit_cx :
    (runCalls [] "k" 0 100 [0]).1.count true = 1 ∧
    ¬((runCalls [] "k" 0 100 [0]).1.count true ≤ 0) := by
  constructor <;> decide

/-- C6 amended: for every key, windowMs and maxRequests ≥ 1, among calls
at times t0, ts all within the window opened by the first call (at most
t0 + windowMs), exactly the first min(count, maxRequests) return true and
every further call in the window returns false; in particular at most
maxRequests return true. -/
theorem checkLimit_window (key : String) (maxRequests windowMs t0 : Nat)
    (ts : List Nat) (hmax : 1 ≤ maxRequests)
    (hin : ∀ t ∈ ts, t ≤ t0 + windowMs) :
    (runCalls [] key maxRequests windowMs (t0 :: ts)).1 =
      List.replicate (min (ts.length + 1) maxRequests) true ++
        List.replicate (ts.length + 1 - maxRequests) false ∧
    (runCalls [] key maxRequests windowMs (t0 :: ts)).1.count true
      ≤ maxRequests := by
  have hstep : checkLimit [] key maxRequests windowMs t0 =
      (true, setEntry [] key ⟨1, t0 + windowMs⟩) := by
    simp [checkLimit, List.lookup]
  have hrun : (runCalls [] key maxRequests windowMs (t0 :: ts)).1 =
      true :: (runCalls (setEntry [] key ⟨1, t0 + windowMs⟩) key maxRequests
        windowMs ts).1 := by
    simp [runCalls, hstep]
  have htail := runCalls_in_window key maxRequests windowMs ts
    (setEntry [] key ⟨1, t0 + windowMs⟩) 1 (t0 + windowMs)
    (lookup_setEntry [] key _) hin hmax
  have h1 : min (ts.length + 1) maxRequests =
      min ts.length (maxRequests - 1) + 1 := by omega
  have h2 : ts.length + 1 - maxRequests = ts.length - (maxRequests - 1) := by
    omega
  have hmain : (runCalls [] key maxRequests windowMs (t0 :: ts)).1 =
      List.replicate (min (ts.length + 1) maxRequests) true ++
        List.replicate (ts.length + 1 - maxRequests) false := by
    rw [hrun, htail, h1, h2, List.replicate_succ]
    simp
  refine ⟨hmain, ?_⟩
  rw [hmain]
  simp [List.count_append, List.count_replicate]

/-- Concrete instance of the amended C6: four calls at times 0, 10, 20, 30
with limit 2 per 100ms window give true, true, false, false — two allowed,
the further in-window calls rejected. -/
theorem checkLimit_window_witness :
    1 ≤ 2 ∧ (∀ t ∈ [10, 20, 30], t ≤ 0 + 100) ∧
    ((runCalls [] "k" 2 100 (0 :: [10, 20, 30])).1 =
        List.replicate (min (3 + 1) 2) true ++ List.replicate (3 + 1 - 2) false ∧
      (runCalls [] "k" 2 100 (0 :: [10, 20, 30])).1.count true ≤ 2) :=
  ⟨by decide, by decide,
   checkLimit_window "k" 2 100 0 [10, 20, 30] (by decide) (by decide)⟩

end RateLimiter

namespace Engine

/-- C7: every bet is created in status pending with no EscrowHold rows;
every reachable pending state has no locked funds; and a transition can
create holds only out of pending, into accepted, with the full required
participant count joined. -/
theorem bet_pending_no_locks (required : Nat) (stakes : List Nat) :
    (createBet.status = .pending ∧ createBet.holds = []) ∧
    (∀ s, BetReachable required stakes s → s.status = .pending → s.holds = []) ∧
    (∀ s s' e, betStep required stakes s e = some s' →
      s.holds = [] → s'.holds ≠ [] →
      s.status = .pending ∧ s'.status = .accepted ∧ required ≤ s'.joined) := by
  refine ⟨⟨rfl, rfl⟩, ?_, ?_⟩
  · intro s hreach
    induction hreach with
    | init => intro _; rfl
    | step hr hstep ih =>
      rename_i s₁ s₂ e
      intro hpend
      cases e <;> simp only [betStep] at hstep <;> split_ifs at hstep <;>
        simp only [Option.some.injEq] at hstep <;> subst hstep <;>
        simp_all
  · intro s s' e hstep hnil hne
    cases e <;> simp only [betStep] at hstep <;> split_ifs at hstep <;>
      simp only [Option.some.injEq] at hstep <;> subst hstep <;> simp_all

/-- Concrete instance of C7 for a two-participant bet with stakes 100 and
100: the freshly created bet is pending with no holds, and the join that
completes the participant set is the transition that locks the stakes. -/
theorem bet_pending_no_locks_witness :
    ((createBet.status = .pending ∧ createBet.holds = []) ∧
      createBet.holds = []) ∧
    ((⟨.pending, 1, []⟩ : BetState).status = .pending ∧
      (⟨.accepted, 2, [100, 100]⟩ : BetState).status = .accepted ∧
      2 ≤ (⟨.accepted, 2, [100, 100]⟩ : BetState).joined) :=
  ⟨⟨(bet_pending_no_locks 2 [100, 100]).1,
    (bet_pending_no_locks 2 [100, 100]).2.1 createBet .init rfl⟩,
   (bet_pending_no_locks 2 [100, 100]).2.2 ⟨.pending, 1, []⟩
     ⟨.accepted, 2, [100, 100]⟩ .join (by decide) rfl (by decide)⟩

/-- Locking A out of an available balance of X, repeated as often as
requested, succeeds exactly min(requests, floor(X/A)) times, every failure
being InsufficientFunds. -/
theorem runOps_lock_count (A : Nat) (hA : 0 < A) :
    ∀ (n X locked : Nat) (ledger : List LedgerEntry),
      ((runOps ⟨(X : Int), (locked : Int), ledger⟩
          (List.replicate n (.lock (A : Int)))).2.countP (fun r => r.isNone)
        = min n (X / A)) ∧
      (∀ r ∈ (runOps ⟨(X : Int), (locked : Int), ledger⟩
          (List.replicate n (.lock (A : Int)))).2,
        r = none ∨ r = some .insufficientFunds) := by
  intro n
  induction n with
  | zero =>
    intro X locked ledger
    simp [runOps]
  | succ n ih =>
    intro X locked ledger
    by_cases hlt : X < A
    · have hstep : applyOp ⟨(X : Int), (locked : Int), ledger⟩ (.lock (A : Int))
          = .error .insufficientFunds := by
        simp only [applyOp]
        rw [if_neg (by exact_mod_cast by omega), if_pos (by exact_mod_cast hlt)]
      simp only [List.replicate_succ, runOps, hstep]
      obtain ⟨ihc, ihm⟩ := ih X locked ledger
      have hdiv : X / A = 0 := Nat.div_eq_of_lt hlt
      constructor
      · simp only [List.countP_cons, ihc, hdiv]
        simp
      · intro r hr
        simp only [List.mem_cons] at hr
        rcases hr with hr | hr
        · exact Or.inr hr
        · exact ihm r hr
    · push_neg at hlt
      have hstep : applyOp ⟨(X : Int), (locked : Int), ledger⟩ (.lock (A : Int))
          = .ok ⟨((X - A : Nat) : Int), ((locked + A : Nat) : Int),
              ⟨.betLock, 0⟩ :: ledger⟩ := by
        simp only [applyOp]
        rw [if_neg (by exact_mod_cast by omega),
          if_neg (by exact_mod_cast by omega)]
        have hsub : (X : Int) - (A : Int) = ((X - A : Nat) : Int) := by
          omega
        have hadd : (locked : Int) + (A : Int) = ((locked + A : Nat) : Int) := by
          omega
        rw [hsub, hadd]
      simp only [List.replicate_succ, runOps, hstep]
      obtain ⟨ihc, ihm⟩ := ih (X - A) (locked + A) (⟨.betLock, 0⟩ :: ledger)
      have hdiv : X / A = (X - A) / A + 1 := Nat.div_eq_sub_div hA hlt
      constructor
      · simp only [List.countP_cons, ihc, hdiv]
        simp [Nat.succ_min_succ]
      · intro r hr
        simp only [List.mem_cons] at hr
        rcases hr with hr | hr
        · exact Or.inl hr
        · exact ihm r hr

/-- C8: a wallet with available_balance X receiving N concurrent
lock(wallet, A, ref) calls — serialized by the Concurrency Coordinator in
whatever arrival order, hence any sequence of N identical lock
operations — grants exactly floor(X/A) of them, and every rejected call
fails with InsufficientFunds. -/
theorem lock_no_double_spend (X A n : Nat) (hA : 0 < A) (hn : X / A ≤ n) :
    ((runOps ⟨(X : Int), 0, []⟩ (List.replicate n (.lock (A : Int)))).2.countP
        (fun r => r.isNone) = X / A) ∧
    (∀ r ∈ (runOps ⟨(X : Int), 0, []⟩ (List.replicate n (.lock (A : Int)))).2,
      r = none ∨ r = some .insufficientFunds) := by
  obtain ⟨h1, h2⟩ := runOps_lock_count A hA n X 0 []
  simp only [Nat.cast_zero] at h1 h2
  exact ⟨h1.trans (Nat.min_eq_right hn), h2⟩

/-- Scenario A instance of C8: available 1000 and two lock(700) calls —
exactly floor(1000/700) = 1 succeeds and the rejected call fails with
InsufficientFunds. -/
theorem lock_no_double_spend_witness :
    0 < 700 ∧ 1000 / 700 ≤ 2 ∧
    (((runOps ⟨(1000 : Int), 0, []⟩
          (List.replicate 2 (.lock (700 : Int)))).2.countP (fun r => r.isNone)
        = 1000 / 700) ∧
      (∀ r ∈ (runOps ⟨(1000 : Int), 0, []⟩
          (List.replicate 2 (.lock (700 : Int)))).2,
        r = none ∨ r = some .insufficientFunds)) :=
  ⟨by decide, by decide, lock_no_double_spend 1000 700 2 (by decide) (by decide)⟩

end Engine

namespace WalletPage

/-- C9: handleDeposit invokes the deposit mutation exactly when neither
amount <= 0 nor amount > 10000 holds under JS comparison semantics, and
handleWithdrawal invokes the withdrawal mutation exactly when neither
amount <= 0, amount > 5000, nor (wallet loaded and amount > wallet.balance)
holds; since every comparison involving NaN is false, a non-numeric input
(parseFloat result NaN) passes both guards, and the 10000/5000 caps are
enforced by these guards alone. -/
theorem walletpage_guards :
    (∀ amount : JsNum, handleDeposit amount = true ↔
      (jsLe amount (.num 0) = false ∧ jsGt amount (.num 10000) = false)) ∧
    (∀ (amount : JsNum) (wallet : Option ℚ),
      handleWithdrawal amount wallet = true ↔
        (jsLe amount (.num 0) = false ∧ jsGt amount (.num 5000) = false ∧
          ∀ balance, wallet = some balance →
            jsGt amount (.num balance) = false)) ∧
    handleDeposit .nan = true ∧
    (∀ wallet, handleWithdrawal .nan wallet = true) := by
  refine ⟨?_, ?_, rfl, ?_⟩
  · intro amount
    unfold handleDeposit
    cases h1 : jsLe amount (.num 0) <;>
      cases h2 : jsGt amount (.num 10000) <;> simp [h1, h2]
  · intro amount wallet
    unfold handleWithdrawal
    cases wallet with
    | none =>
      cases h1 : jsLe amount (.num 0) <;>
        cases h2 : jsGt amount (.num 5000) <;> simp [h1, h2]
    | some b =>
      cases h1 : jsLe amount (.num 0) <;>
        cases h2 : jsGt amount (.num 5000) <;>
        cases h3 : jsGt amount (.num b) <;> simp [h1, h2, h3]
  · intro wallet
    cases wallet <;> rfl

/-- Concrete instance of C9: the NaN produced by a non-numeric input
passes the deposit guard. -/
theorem walletpage_guards_witness : handleDeposit .nan = true :=
  walletpage_guards.2.2.1

end WalletPage

namespace UseLocation

/-- C10: when the location lookup fails or throws, the catch branch of
detectLocation installs the default United States location with
compliance_status allowed and the default deposit/withdrawal limits, after
which isLocationAllowed() is true and isLocationBlocked() is false —
location gating fails open on detection error. -/
theorem location_fail_open :
    (detectLocation .threw).1 = some defaultLocation ∧
    (detectLocation .threw).2 = some defaultCompliance ∧
    defaultLocation.country = "US" ∧
    defaultLocation.complianceStatus = .allowed ∧
    defaultCompliance.depositLimits = ⟨1000, 5000, 20000⟩ ∧
    defaultCompliance.withdrawalLimits = ⟨5000, 10000, 50000⟩ ∧
    isLocationAllowed (detectLocation .threw).1 = true ∧
    isLocationBlocked (detectLocation .threw).1 = false := by
  refine ⟨rfl, rfl, rfl, rfl, rfl, rfl, rfl, rfl⟩

end UseLocation
